import Mathlib

/-!
Formal model of the Stock-Analysis viewer (`src/app.py`).

Python strings are modelled as lists of Unicode code points (`Str`),
prices as rationals, dates as naturals.  Remote calls (`yf.download`,
the file system) are oracle parameters; everything else is translated
directly from the source.
-/

namespace StockApp

/-- Python strings modelled as lists of code points. -/
abbrev Str := List Nat

/-- Code points of a Lean string literal. -/
def strLit (s : String) : Str := s.data.map (fun c => c.toNat)

/-- Whitespace recognised by `str.strip` (ASCII range, as the inputs use). -/
def isSpace (c : Nat) : Bool :=
  c == 32 || c == 9 || c == 10 || c == 11 || c == 12 || c == 13

/-- `str.upper` on one code point (ASCII range). -/
def upperChar (c : Nat) : Nat := if 97 ≤ c ∧ c ≤ 122 then c - 32 else c

/-- `str.lower` on one code point (ASCII range). -/
def lowerChar (c : Nat) : Nat := if 65 ≤ c ∧ c ≤ 90 then c + 32 else c

/-- `str.upper`. -/
def upperStr (s : Str) : Str := s.map upperChar

/-- `str.lower`. -/
def lowerStr (s : Str) : Str := s.map lowerChar

/-- `str.strip`: remove leading and trailing whitespace. -/
def trimStr (s : Str) : Str :=
  ((s.dropWhile isSpace).reverse.dropWhile isSpace).reverse

/-- Python lexicographic `<` on strings (code-point order). -/
def strLt : Str → Str → Bool
  | [], [] => false
  | [], _ :: _ => true
  | _ :: _, [] => false
  | a :: as, b :: bs => if a < b then true else if b < a then false else strLt as bs

/-- The `≤` used to realise Python `sorted` via a stable merge sort. -/
def strLe (a b : Str) : Bool := !(strLt b a)

/-- `sorted` on a list of strings. -/
def sortStrs (l : List Str) : List Str := l.mergeSort strLe

/-- `map_to_yahoo` (app.py lines 21-30). -/
def mapToYahoo (symbol : Str) : Str :=
  let s := upperStr (trimStr symbol)
  if s = [] then s
  else if strLit ":TSXV" <:+ s then (s.take (s.length - 5)) ++ strLit ".V"
  else if strLit ":TSX" <:+ s then (s.take (s.length - 4)) ++ strLit ".TO"
  else if s.contains 46 then s else s ++ strLit ".TO"

/-- An in-memory CSV: ordered (column name, column entries) pairs,
as produced by `pd.read_csv`. -/
structure Csv where
  cols : List (Str × List Str)
deriving DecidableEq

/-- The fixed fallback list (app.py lines 43 and 49). -/
def big6 : List Str :=
  [strLit "RY.TO", strLit "TD.TO", strLit "BNS.TO",
   strLit "BMO.TO", strLit "CM.TO", strLit "NA.TO"]

/-- The first column whose stripped lower-cased name is `ticker` or `symbol`
(app.py lines 36-40). -/
def findSymCol (cols : List (Str × List Str)) : Option (Str × List Str) :=
  cols.find? (fun c =>
    lowerStr (trimStr c.1) == strLit "ticker" || lowerStr (trimStr c.1) == strLit "symbol")

/-- `str.replace(r":TSXV?$", "", regex=True)` on one entry (app.py line 45). -/
def stripQual (s : Str) : Str :=
  if strLit ":TSXV" <:+ s then s.take (s.length - 5)
  else if strLit ":TSX" <:+ s then s.take (s.length - 4)
  else s

/-- `load_ticker_list` (app.py lines 33-49).  `pexists` models
`Path(csv_path).exists()`; `pread` models `pd.read_csv`, which can raise —
the function body has no handler, so a read error propagates.  The result
pairs the ticker list with whether the missing-column warning fired. -/
def loadTickerList (pexists : Str → Bool) (pread : Str → Except Str Csv)
    (csvPath : Str) : Except Str (List Str × Bool) :=
  if csvPath ≠ [] ∧ pexists csvPath = true then
    match pread csvPath with
    | Except.error e => Except.error e
    | Except.ok df =>
      match findSymCol df.cols with
      | none => Except.ok (big6, true)
      | some c =>
        let base := c.2.map (fun s0 => stripQual (trimStr s0))
        Except.ok (sortStrs (((base.filter (fun s0 => !s0.isEmpty)).map mapToYahoo).dedup), false)
  else Except.ok (big6, false)

/-- Wide price frame: the ticker columns plus one row per date
(index value, one optional price per ticker). -/
structure Wide where
  tickers : List Str
  rowsW : List (Nat × List (Option ℚ))
deriving DecidableEq

/-- `pd.DataFrame()`. -/
def emptyWide : Wide := ⟨[], []⟩

/-- `DataFrame.sort_index()`. -/
def sortIndexW (w : Wide) : Wide :=
  ⟨w.tickers, w.rowsW.mergeSort (fun a b => decide (a.1 ≤ b.1))⟩

/-- `DataFrame.dropna(axis=1, how="all")`. -/
def dropAllNaCols (w : Wide) : Wide :=
  let keep := (List.range w.tickers.length).filter
    (fun j => w.rowsW.any (fun r => (r.2.getD j none).isSome))
  ⟨keep.filterMap (fun j => w.tickers.get? j),
   w.rowsW.map (fun r => (r.1, keep.map (fun j => r.2.getD j none)))⟩

/-- The row recursion of `DataFrame.ffill()`, carrying the last seen
value of every column. -/
def ffillRows (carry : List (Option ℚ)) :
    List (Nat × List (Option ℚ)) → List (Nat × List (Option ℚ))
  | [] => []
  | r :: rest =>
    let merged := List.zipWith (fun v c => match v with
      | some x => some x
      | none => c) r.2 carry
    (r.1, merged) :: ffillRows merged rest

/-- `DataFrame.ffill()`. -/
def ffillW (w : Wide) : Wide :=
  ⟨w.tickers, ffillRows (w.tickers.map (fun _ => none)) w.rowsW⟩

/-- `download_prices` (app.py lines 52-68).  The remote `yf.download` call
together with the Adj-Close column extraction is the oracle `fetch`; the
deterministic tail `.sort_index().dropna(axis=1, how="all").ffill()` is
explicit.  The guard is line 53-54: `if not tickers: return pd.DataFrame()`. -/
def downloadPrices (fetch : List Str → Nat → Nat → Wide)
    (tickers : List Str) (start stop : Nat) : Wide :=
  if tickers.isEmpty then emptyWide
  else ffillW (dropAllNaCols (sortIndexW (fetch tickers start stop)))

/-- One pandas cell, as used by the frames of this app. -/
inductive Cell where
  | num (q : ℚ)
  | str (s : Str)
  | nan
  | idx (n : Nat)
deriving DecidableEq

/-- A pandas DataFrame: a (possibly named) index, column names and rows. -/
structure Frame where
  indexName : Option Str
  index : List Cell
  cols : List Str
  rows : List (List Cell)
deriving DecidableEq

/-- `DataFrame.reset_index()`: the index becomes the first column (named
`index` when the index is unnamed) and a fresh range index is installed. -/
def resetIndexF (f : Frame) : Frame :=
  { indexName := none
    index := (List.range f.rows.length).map Cell.idx
    cols := (f.indexName.getD (strLit "index")) :: f.cols
    rows := (f.index.zip f.rows).map (fun p => p.1 :: p.2) }

/-- Position of a column name. -/
def colIdx (cols : List Str) (c : Str) : Nat := cols.findIdx (fun x => x == c)

/-- `DataFrame.melt(id_vars=idVar, var_name=varName, value_name=valueName)`.
pandas raises `ValueError` when `value_name` is already a column, and
`KeyError` when `id_vars` is absent; value columns are stacked in column
order, giving a column-major row list under a fresh range index. -/
def meltF (idVar varName valueName : Str) (f : Frame) : Except Str Frame :=
  if f.cols.contains valueName then
    Except.error (strLit "ValueError: value_name cannot match an element in the DataFrame columns")
  else if !(f.cols.contains idVar) then
    Except.error (strLit "KeyError: id_vars not present in the DataFrame")
  else
    let valueVars := f.cols.filter (fun c => !(c == idVar))
    let jI := colIdx f.cols idVar
    let newRows := valueVars.flatMap (fun v =>
      f.rows.map (fun r => [r.getD jI Cell.nan, Cell.str v, r.getD (colIdx f.cols v) Cell.nan]))
    Except.ok
      { indexName := none
        index := (List.range newRows.length).map Cell.idx
        cols := [idVar, varName, valueName]
        rows := newRows }

/-- `DataFrame.dropna(subset=[c])`: keep the rows whose `c` cell is not null. -/
def dropnaF (c : Str) (f : Frame) : Except Str Frame :=
  if !(f.cols.contains c) then Except.error (strLit "KeyError")
  else
    let j := colIdx f.cols c
    let kept := (f.index.zip f.rows).filter (fun p => !(p.2.getD j Cell.nan == Cell.nan))
    Except.ok { indexName := f.indexName, index := kept.unzip.1, cols := f.cols, rows := kept.unzip.2 }

/-- `tidy_from_wide` (app.py lines 70-73):
`adj.reset_index().melt(id_vars="Date", var_name="Ticker", value_name="Adj Close")`
followed by `dropna(subset=["Adj Close"])`. -/
def tidyFromWideF (f : Frame) : Except Str Frame := do
  let m ← meltF (strLit "Date") (strLit "Ticker") (strLit "Adj Close") (resetIndexF f)
  dropnaF (strLit "Adj Close") m

/-- One row of the tidy frame: (date, ticker, adjusted close). -/
abbrev TRow := Nat × Str × ℚ

/-- The ticker field of a tidy row. -/
def rowTicker (r : TRow) : Str := r.2.1

/-- The price field of a tidy row. -/
def rowPrice (r : TRow) : ℚ := r.2.2

/-- The distinct tickers of a tidy table, as grouped by `groupby("Ticker")`. -/
def tickersOf (rows : List TRow) : List Str := (rows.map rowTicker).dedup

/-- The "Adj Close" entries of one ticker. -/
def pricesOf (rows : List TRow) (t : Str) : List ℚ :=
  (rows.filter (fun r => rowTicker r == t)).map rowPrice

/-- `to_remove` (app.py lines 116-117): tickers whose grouped maximum
exceeds the threshold. -/
def toRemove (rows : List TRow) (thr : ℚ) : List Str :=
  (tickersOf rows).filter (fun t =>
    match (pricesOf rows t).max? with
    | some m => decide (thr < m)
    | none => false)

/-- `tidy_filtered` (app.py line 118): `tidy[~tidy["Ticker"].isin(to_remove)]`. -/
def tidyFiltered (rows : List TRow) (thr : ℚ) : List TRow :=
  rows.filter (fun r => !((toRemove rows thr).contains (rowTicker r)))

/-- `has_keep` (app.py line 124). -/
def hasKeep (allT : List Str) (keep : Str) : Bool := allT.contains keep

/-- `others` (app.py line 125). -/
def othersOf (allT : List Str) (keep : Str) : List Str :=
  allT.filter (fun t => !(t == keep))

/-- `per_page` (app.py line 127). -/
def perPage (pageSize : Nat) (hk : Bool) : Nat :=
  if hk then pageSize - 1 else pageSize

/-- `math.ceil(a / b)` for naturals with `b > 0`. -/
def ceilDivNat (a b : Nat) : Nat := (a + b - 1) / b

/-- `total_pages` (app.py line 128):
`max(1, math.ceil(len(others) / max(1, per_page)))`. -/
def totalPages (nOthers pp : Nat) : Nat := max 1 (ceilDivNat nOthers (max 1 pp))

/-- `page = max(1, min(page, total_pages))` (app.py line 134). -/
def clampPage (tp : Nat) (page : Int) : Int := max 1 (min page (tp : Int))

/-- `select_page` (app.py lines 133-139). -/
def selectPage (os : List Str) (keep : Str) (hk : Bool) (pp tp : Nat)
    (page : Int) : List Str :=
  let p := clampPage tp page
  let startIdx := ((p - 1) * (pp : Int)).toNat
  let pageOthers := (os.drop startIdx).take pp
  let sel := if hk then keep :: pageOthers else pageOthers
  sortStrs sel

/-- app.py lines 123-139 composed: the page selection computed from the
filtered ticker universe. -/
def appSelect (allT : List Str) (keep : Str) (pageSize : Nat) (page : Int) : List Str :=
  selectPage (othersOf allT keep) keep (hasKeep allT keep)
    (perPage pageSize (hasKeep allT keep))
    (totalPages (othersOf allT keep).length (perPage pageSize (hasKeep allT keep))) page

/-- The "Next▶" update (app.py line 148):
`st.session_state.page = min(total_pages, st.session_state.page + 1)`. -/
def nextPage (p tp : Int) : Int := min tp (p + 1)

/-- The "◀Prev" update (app.py line 145):
`st.session_state.page = max(1, st.session_state.page - 1)`. -/
def prevPage (p : Int) : Int := max 1 (p - 1)

/-- A concrete two-day, one-ticker wide frame (dates indexed by day number). -/
def wideEx : Frame :=
  { indexName := some (strLit "Date")
    index := [Cell.idx 0, Cell.idx 1]
    cols := [strLit "AAA.TO"]
    rows := [[Cell.num 5], [Cell.num 6]] }

/-- The tidy frame produced from `wideEx`. -/
def tidyEx : Frame :=
  { indexName := none
    index := [Cell.idx 0, Cell.idx 1]
    cols := [strLit "Date", strLit "Ticker", strLit "Adj Close"]
    rows := [[Cell.idx 0, Cell.str (strLit "AAA.TO"), Cell.num 5],
             [Cell.idx 1, Cell.str (strLit "AAA.TO"), Cell.num 6]] }

/-- `le_antisymm` packaged for the `List.max?` lemmas. -/
instance : Std.Antisymm (fun (a b : ℚ) => a ≤ b) where
  antisymm h h2 := le_antisymm h h2

/-! ## Theorems -/

/-- C1 (counterexample): with the pinned ticker present, page size 3 and
zero remaining (non-pinned) tickers, the paginator computes 1 page while
the claimed formula `ceil(N / (P-1))` gives 0. -/
theorem c1_pageCount_counterexample :
    totalPages 0 (perPage 3 true) ≠ ceilDivNat 0 (3 - 1) := by decide

/-- C1 (amended): for page size `P ≥ 2` with the pinned ticker present, the
total page count for `N` remaining non-pinned tickers equals
`max 1 (ceil (N / (P-1)))`; in particular it equals `ceil (N / (P-1))`
whenever `N ≥ 1`. -/
theorem c1_pageCount (N P : Nat) (hP : 2 ≤ P) :
    totalPages N (perPage P true) = max 1 (ceilDivNat N (P - 1)) := by
  have hpp : perPage P true = P - 1 := rfl
  rw [hpp]
  unfold totalPages
  rw [show max 1 (P - 1) = P - 1 by omega]

/-- Witness for `c1_pageCount` at `N = 5`, `P = 3` (the spec's own example,
which yields 3 pages of non-pinned tickers... `ceil (5/2) = 3`). -/
theorem c1_pageCount_witness :
    totalPages 5 (perPage 3 true) = max 1 (ceilDivNat 5 (3 - 1)) :=
  c1_pageCount 5 3 (by decide)

/-- C4 (counterexample): the reshaper maps the concrete wide frame `wideEx`
to `tidyEx`, but applying the reshaper to `tidyEx` does not return `tidyEx`:
pandas `melt` raises `ValueError` because `value_name` "Adj Close" already
names a column of the tidy frame.  So the tidy form is not a fixed point of
the reshaper as claimed. -/
theorem c4_reshaper_counterexample :
    tidyFromWideF wideEx = Except.ok tidyEx ∧ tidyFromWideF tidyEx ≠ Except.ok tidyEx := by
  refine ⟨rfl, ?_⟩
  intro h
  rw [show tidyFromWideF tidyEx = Except.error
    (strLit "ValueError: value_name cannot match an element in the DataFrame columns")
    from rfl] at h
  exact Except.noConfusion h

/-- `dropnaF` on a frame that has the requested column, written out. -/
theorem dropnaF_ok (c : Str) (f : Frame) (hc : f.cols.contains c = true) :
    dropnaF c f = Except.ok
      { indexName := f.indexName
        index := ((f.index.zip f.rows).filter
          (fun p => !(p.2.getD (colIdx f.cols c) Cell.nan == Cell.nan))).unzip.1
        cols := f.cols
        rows := ((f.index.zip f.rows).filter
          (fun p => !(p.2.getD (colIdx f.cols c) Cell.nan == Cell.nan))).unzip.2 } := by
  unfold dropnaF
  rw [hc]
  rfl

/-- C4 (amended): the tidy output is stable under the reshaper's
normalisation step: every successful tidy result is a fixed point of
`dropna(subset=["Adj Close"])` — it contains no null prices, so dropping
null rows again returns it unchanged.  (The full reshaper itself cannot be
re-applied: `melt` rejects the tidy frame, see the counterexample.) -/
theorem c4_dropna_stable (f t : Frame) (h : tidyFromWideF f = Except.ok t) :
    dropnaF (strLit "Adj Close") t = Except.ok t := by
  unfold tidyFromWideF at h
  cases hm : meltF (strLit "Date") (strLit "Ticker") (strLit "Adj Close") (resetIndexF f) with
  | error e => rw [hm] at h; exact Except.noConfusion h
  | ok m =>
    rw [hm] at h
    have hcols : m.cols = [strLit "Date", strLit "Ticker", strLit "Adj Close"] := by
      unfold meltF at hm
      split at hm
      · exact Except.noConfusion hm
      · split at hm
        · exact Except.noConfusion hm
        · cases hm; rfl
    have h' : dropnaF (strLit "Adj Close") m = Except.ok t := h
    have hc : m.cols.contains (strLit "Adj Close") = true := by rw [hcols]; decide
    rw [dropnaF_ok _ _ hc] at h'
    injection h' with h2
    subst h2
    have hc2 : (Frame.mk m.indexName
        ((m.index.zip m.rows).filter
          (fun p => !(p.2.getD (colIdx m.cols (strLit "Adj Close")) Cell.nan == Cell.nan))).unzip.1
        m.cols
        ((m.index.zip m.rows).filter
          (fun p => !(p.2.getD (colIdx m.cols (strLit "Adj Close")) Cell.nan == Cell.nan))).unzip.2).cols.contains
        (strLit "Adj Close") = true := by simpa using hc
    rw [dropnaF_ok _ _ hc2]
    simp only [List.zip_unzip, List.filter_filter]
    rw [show (fun (a : Cell × List Cell) =>
        !a.2.getD (colIdx m.cols (strLit "Adj Close")) Cell.nan == Cell.nan &&
          !a.2.getD (colIdx m.cols (strLit "Adj Close")) Cell.nan == Cell.nan) =
        (fun p => !p.2.getD (colIdx m.cols (strLit "Adj Close")) Cell.nan == Cell.nan)
      from funext (fun a => Bool.and_self _)]

/-- Witness for `c4_dropna_stable` at the concrete wide frame `wideEx`. -/
theorem c4_dropna_stable_witness :
    dropnaF (strLit "Adj Close") tidyEx = Except.ok tidyEx :=
  c4_dropna_stable wideEx tidyEx rfl

/-- C6: starting inside `[1, total_pages]`, the "Next▶" and "◀Prev" updates
keep the page counter inside `[1, total_pages]`; "Next▶" on the last page
stays on the last page, "◀Prev" on page 1 stays on page 1, and otherwise
each moves the page by exactly one. -/
theorem c6_page_navigation (p tp : Int) (h1 : 1 ≤ p) (h2 : p ≤ tp) :
    1 ≤ nextPage p tp ∧ nextPage p tp ≤ tp ∧
    1 ≤ prevPage p ∧ prevPage p ≤ tp ∧
    (p = tp → nextPage p tp = tp) ∧ (p < tp → nextPage p tp = p + 1) ∧
    (p = 1 → prevPage p = 1) ∧ (1 < p → prevPage p = p - 1) := by
  unfold nextPage prevPage
  omega

/-- Witness for `c6_page_navigation` at page 1 of 1 (both buttons clamp). -/
theorem c6_page_navigation_witness :
    1 ≤ nextPage 1 1 ∧ nextPage 1 1 ≤ 1 ∧
    1 ≤ prevPage 1 ∧ prevPage 1 ≤ 1 ∧
    ((1 : Int) = 1 → nextPage 1 1 = 1) ∧ ((1 : Int) < 1 → nextPage 1 1 = 1 + 1) ∧
    ((1 : Int) = 1 → prevPage 1 = 1) ∧ ((1 : Int) < 1 → prevPage 1 = 1 - 1) :=
  c6_page_navigation 1 1 (by decide) (by decide)

/-- C7: for every date window and every fetch oracle, `download_prices`
with an empty ticker collection returns the empty frame — the result does
not depend on the oracle, so no remote fetch result is incorporated. -/
theorem c7_empty_download (fetch : List Str → Nat → Nat → Wide) (start stop : Nat) :
    downloadPrices fetch [] start stop = emptyWide := rfl

/-- `List.max?` on rationals is the greatest element. -/
theorem rat_max?_eq_some_iff (l : List ℚ) (m : ℚ) :
    l.max? = some m ↔ m ∈ l ∧ ∀ b ∈ l, b ≤ m :=
  List.max?_eq_some_iff (fun a => le_refl a) max_choice (fun _ _ _ => max_le_iff)

/-- The removal predicate of `toRemove`, characterised. -/
theorem toRemove_pred_iff (rows : List TRow) (thr : ℚ) (t : Str) :
    (match (pricesOf rows t).max? with
      | some m => decide (thr < m)
      | none => false) = true ↔ ∃ p ∈ pricesOf rows t, thr < p := by
  cases hmx : (pricesOf rows t).max? with
  | none =>
    rw [List.max?_eq_none_iff] at hmx
    simp [hmx]
  | some m =>
    have hspec := (rat_max?_eq_some_iff _ m).mp hmx
    simp only [decide_eq_true_eq]
    constructor
    · intro h; exact ⟨m, hspec.1, h⟩
    · rintro ⟨p, hpmem, hplt⟩; exact lt_of_lt_of_le hplt (hspec.2 p hpmem)

/-- Membership in `toRemove`. -/
theorem mem_toRemove_iff (rows : List TRow) (thr : ℚ) (t : Str) :
    t ∈ toRemove rows thr ↔ t ∈ tickersOf rows ∧ ∃ p ∈ pricesOf rows t, thr < p := by
  unfold toRemove
  rw [List.mem_filter, toRemove_pred_iff]

/-- Rows keep their ticker in the universe. -/
theorem rowTicker_mem_tickersOf (rows : List TRow) (r : TRow) (hr : r ∈ rows) :
    rowTicker r ∈ tickersOf rows :=
  List.mem_dedup.mpr (List.mem_map_of_mem rowTicker hr)

theorem c5_row_iff (rows : List TRow) (thr : ℚ) (r : TRow) :
    r ∈ tidyFiltered rows thr ↔ r ∈ rows ∧ ∀ p ∈ pricesOf rows (rowTicker r), p ≤ thr := by
  unfold tidyFiltered
  rw [List.mem_filter]
  have hb : (!(toRemove rows thr).contains (rowTicker r)) = true ↔
      ¬ rowTicker r ∈ toRemove rows thr := by simp
  rw [hb, mem_toRemove_iff]
  constructor
  · rintro ⟨hr, hnot⟩
    refine ⟨hr, fun p hp => ?_⟩
    by_contra hgt
    exact hnot ⟨rowTicker_mem_tickersOf rows r hr, p, hp, lt_of_not_le hgt⟩
  · rintro ⟨hr, hall⟩
    refine ⟨hr, fun hmem => ?_⟩
    obtain ⟨_, p, hp, hlt⟩ := hmem
    exact absurd (hall p hp) (not_le_of_lt hlt)

theorem c5_ticker_iff (rows : List TRow) (thr : ℚ) (t : Str) :
    t ∈ tickersOf (tidyFiltered rows thr) ↔
      t ∈ tickersOf rows ∧ ∀ p ∈ pricesOf rows t, p ≤ thr := by
  unfold tickersOf
  rw [List.mem_dedup, List.mem_map]
  constructor
  · rintro ⟨r, hrmem, rfl⟩
    have := (c5_row_iff rows thr r).mp hrmem
    exact ⟨rowTicker_mem_tickersOf rows r this.1, this.2⟩
  · rintro ⟨htk, hall⟩
    rw [List.mem_dedup, List.mem_map] at htk
    obtain ⟨r, hrmem, rfl⟩ := htk
    exact ⟨r, (c5_row_iff rows thr r).mpr ⟨hrmem, hall⟩, rfl⟩

theorem c5_filter_exact (rows : List TRow) (thr : ℚ) :
    (∀ r, r ∈ tidyFiltered rows thr ↔
      r ∈ rows ∧ ∀ p ∈ pricesOf rows (rowTicker r), p ≤ thr) ∧
    (∀ t, t ∈ tickersOf (tidyFiltered rows thr) ↔
      t ∈ tickersOf rows ∧ ∀ p ∈ pricesOf rows t, p ≤ thr) :=
  ⟨c5_row_iff rows thr, c5_ticker_iff rows thr⟩

/-- `strLt` is irreflexive. -/
theorem strLt_irrefl : ∀ a : Str, strLt a a = false
  | [] => rfl
  | c :: cs => by simp [strLt, strLt_irrefl cs]

/-- `strLt` is asymmetric. -/
theorem strLt_asymm : ∀ a b : Str, strLt a b = true → strLt b a = false
  | [], [] => by simp [strLt]
  | [], _ :: _ => by simp [strLt]
  | _ :: _, [] => by simp [strLt]
  | a :: as, b :: bs => by
    simp only [strLt]
    split_ifs with h1 h2 h3 <;> try omega
    all_goals simp_all
    exact strLt_asymm as bs

/-- `strLt` is trichotomous. -/
theorem strLt_trichotomy : ∀ a b : Str, strLt a b = true ∨ a = b ∨ strLt b a = true
  | [], [] => Or.inr (Or.inl rfl)
  | [], _ :: _ => Or.inl rfl
  | _ :: _, [] => Or.inr (Or.inr rfl)
  | a :: as, b :: bs => by
    rcases Nat.lt_trichotomy a b with h | h | h
    · exact Or.inl (by simp [strLt, h])
    · subst h
      rcases strLt_trichotomy as bs with h2 | h2 | h2
      · exact Or.inl (by simp [strLt, h2])
      · exact Or.inr (Or.inl (by rw [h2]))
      · exact Or.inr (Or.inr (by simp [strLt, h2]))
    · exact Or.inr (Or.inr (by simp [strLt, h]))

/-- `strLt` is transitive. -/
theorem strLt_trans : ∀ a b c : Str, strLt a b = true → strLt b c = true → strLt a c = true
  | [], [], _ :: _, _, _ => rfl
  | [], _ :: _, _ :: _, _, _ => rfl
  | a :: as, b :: bs, c :: cs, h1, h2 => by
    simp only [strLt] at h1 h2 ⊢
    split_ifs with g1 g2 <;> try rfl
    all_goals
      split_ifs at h1 h2 with i1 i2 i3 i4 <;> try omega
    all_goals try simp_all
    exact strLt_trans as bs cs h1 h2

/-- `strLe` is total. -/
theorem strLe_total (a b : Str) : strLe a b || strLe b a := by
  unfold strLe
  cases h : strLt b a
  · simp
  · simp [strLt_asymm b a h]

/-- `strLe` is transitive. -/
theorem strLe_trans (a b c : Str) : strLe a b → strLe b c → strLe a c := by
  unfold strLe
  intro h1 h2
  simp only [Bool.not_eq_true'] at h1 h2 ⊢
  by_contra hca
  rw [Bool.not_eq_false] at hca
  rcases strLt_trichotomy a b with g | g | g
  · rcases strLt_trichotomy b c with k | k | k
    · have := strLt_trans c a b hca g
      rw [strLt_asymm b c k] at this
      exact Bool.noConfusion this
    · subst k
      rw [strLt_asymm a b g] at hca
      exact Bool.noConfusion hca
    · rw [k] at h2
      exact Bool.noConfusion h2
  · subst g
    rw [hca] at h2
    exact Bool.noConfusion h2
  · rw [g] at h1
    exact Bool.noConfusion h1

/-- `sorted` returns a sorted list. -/
theorem sortStrs_sorted (l : List Str) : (sortStrs l).Pairwise (fun a b => strLe a b = true) :=
  List.sorted_mergeSort (fun a b c => strLe_trans a b c) (fun a b => strLe_total a b) l

/-- `sorted` preserves length. -/
theorem sortStrs_length (l : List Str) : (sortStrs l).length = l.length :=
  List.length_mergeSort l

/-- `sorted` preserves membership. -/
theorem mem_sortStrs (a : Str) (l : List Str) : a ∈ sortStrs l ↔ a ∈ l :=
  List.mem_mergeSort

/-- Clamping is idempotent. -/
theorem clampPage_idem (tp : Nat) (page : Int) :
    clampPage tp (clampPage tp page) = clampPage tp page := by
  unfold clampPage
  omega

/-- C10: `select_page` is total over all integer pages: it first clamps the
page into `[1, total_pages]` (so any page argument selects the same list as
its clamped value), the clamped page always lies in that interval, and the
result is a well-defined sorted list, for every ticker list including the
empty one. -/
theorem c10_selectPage_total (os : List Str) (keep : Str) (hk : Bool)
    (pp : Nat) (page : Int) :
    selectPage os keep hk pp (totalPages os.length pp) page
      = selectPage os keep hk pp (totalPages os.length pp)
          (clampPage (totalPages os.length pp) page) ∧
    1 ≤ clampPage (totalPages os.length pp) page ∧
    clampPage (totalPages os.length pp) page ≤ (totalPages os.length pp : Int) ∧
    (selectPage os keep hk pp (totalPages os.length pp) page).Pairwise
      (fun a b => strLe a b = true) := by
  have htp : 1 ≤ totalPages os.length pp := le_max_left 1 _
  refine ⟨?_, ?_, ?_, ?_⟩
  · unfold selectPage
    rw [clampPage_idem]
  · unfold clampPage; omega
  · unfold clampPage; omega
  · exact sortStrs_sorted _

/-- C9: every page selection holds at most `page_size` tickers, and whenever
the pinned always-keep ticker is present in the filtered ticker set it is
part of the selection of every page. -/
theorem c9_page_invariants (allT : List Str) (keep : Str) (pageSize : Nat)
    (page : Int) (hps : 1 ≤ pageSize) :
    (appSelect allT keep pageSize page).length ≤ pageSize ∧
    (hasKeep allT keep = true → keep ∈ appSelect allT keep pageSize page) := by
  constructor
  · unfold appSelect selectPage
    rw [sortStrs_length]
    cases hhk : hasKeep allT keep
    · simp only [Bool.false_eq_true, if_false]
      calc (((othersOf allT keep).drop _).take (perPage pageSize false)).length
          ≤ perPage pageSize false := by
            rw [List.length_take]; exact min_le_left _ _
        _ = pageSize := rfl
    · simp only [if_true]
      have : (((othersOf allT keep).drop
          (((clampPage (totalPages (othersOf allT keep).length (perPage pageSize true))
            page) - 1) * ((perPage pageSize true : Nat) : Int)).toNat).take
            (perPage pageSize true)).length ≤ perPage pageSize true := by
        rw [List.length_take]; exact min_le_left _ _
      simp only [List.length_cons]
      have hpp : perPage pageSize true = pageSize - 1 := rfl
      omega
  · intro hhk
    unfold appSelect selectPage
    rw [hhk]
    simp only [if_true]
    exact (mem_sortStrs _ _).mpr (List.mem_cons_self _ _)


/-- Witness for `c9_page_invariants` on a two-ticker universe with the
pinned ticker present, page size 5, page 1. -/
theorem c9_page_invariants_witness :
    (appSelect [strLit "A.TO", strLit "B.TO"] (strLit "A.TO") 5 1).length ≤ 5 ∧
    (hasKeep [strLit "A.TO", strLit "B.TO"] (strLit "A.TO") = true →
      strLit "A.TO" ∈ appSelect [strLit "A.TO", strLit "B.TO"] (strLit "A.TO") 5 1) :=
  c9_page_invariants [strLit "A.TO", strLit "B.TO"] (strLit "A.TO") 5 1 (by decide)

/-- `upperChar` is idempotent. -/
theorem upperChar_idem (c : Nat) : upperChar (upperChar c) = upperChar c := by
  unfold upperChar
  split_ifs <;> omega

/-- Upper-casing does not create or destroy whitespace. -/
theorem isSpace_upperChar (c : Nat) : isSpace (upperChar c) = isSpace c := by
  rw [Bool.eq_iff_iff]
  unfold isSpace upperChar
  split_ifs with h
  · simp only [Bool.or_eq_true, beq_iff_eq]
    constructor <;> intro <;> omega
  · exact Iff.rfl

/-- `upperStr` is idempotent. -/
theorem upperStr_idem (l : Str) : upperStr (upperStr l) = upperStr l := by
  unfold upperStr
  rw [List.map_map]
  exact List.map_congr_left (fun a _ => upperChar_idem a)

/-- `dropWhile` is idempotent. -/
theorem dropWhile_dropWhile (p : Nat → Bool) (l : Str) :
    (l.dropWhile p).dropWhile p = l.dropWhile p := by
  induction l with
  | nil => rfl
  | cons a t ih =>
    by_cases h : p a <;> simp [List.dropWhile_cons, h, ih]

/-- The head of a `dropWhile` result fails the predicate. -/
theorem head_dropWhile_false (p : Nat → Bool) (l : Str) (x : Nat)
    (h : (l.dropWhile p).head? = some x) : p x = false := by
  have := List.head?_dropWhile_not p l
  rw [h] at this
  exact this

/-- `dropWhile` leaves a list whose head fails the predicate unchanged. -/
theorem dropWhile_eq_self_of_head (p : Nat → Bool) (l : Str)
    (h : ∀ x ∈ l.head?, p x = false) : l.dropWhile p = l := by
  cases l with
  | nil => rfl
  | cons a t => simp [List.dropWhile_cons, h a rfl]

/-- The trimmed string is a prefix-and-suffix carve-out; its head is not
whitespace. -/
theorem trim_head_false (l : Str) : ∀ x ∈ (trimStr l).head?, isSpace x = false := by
  intro x hx
  unfold trimStr at hx
  have hsfx : ((l.dropWhile isSpace).reverse.dropWhile isSpace).reverse <+: l.dropWhile isSpace := by
    have h1 : (l.dropWhile isSpace).reverse.dropWhile isSpace <:+ (l.dropWhile isSpace).reverse :=
      List.dropWhile_suffix isSpace
    have h2 := (@List.reverse_suffix _ ((l.dropWhile isSpace).reverse.dropWhile isSpace).reverse
      (l.dropWhile isSpace)).mp (by simpa using h1)
    exact h2
  obtain ⟨r, hr⟩ := hsfx
  cases hh : ((l.dropWhile isSpace).reverse.dropWhile isSpace).reverse with
  | nil => rw [hh] at hx; cases hx
  | cons a t =>
    rw [hh] at hx
    simp only [List.head?_cons, Option.mem_def, Option.some.injEq] at hx
    rw [← hx]
    rw [hh] at hr
    apply head_dropWhile_false isSpace l a
    rw [← hr]
    rfl

/-- The last element of a trimmed string is not whitespace. -/
theorem trim_getLast_false (l : Str) : ∀ x ∈ (trimStr l).getLast?, isSpace x = false := by
  intro x hx
  unfold trimStr at hx
  rw [List.getLast?_eq_head?_reverse, List.reverse_reverse] at hx
  exact head_dropWhile_false isSpace (l.dropWhile isSpace).reverse x hx

/-- A string whose ends are not whitespace is fixed by `strip`. -/
theorem trimStr_eq_self_of (l : Str)
    (h1 : ∀ x ∈ l.head?, isSpace x = false)
    (h2 : ∀ x ∈ l.getLast?, isSpace x = false) : trimStr l = l := by
  unfold trimStr
  rw [dropWhile_eq_self_of_head isSpace l h1]
  rw [dropWhile_eq_self_of_head isSpace l.reverse (by
    intro x hx
    rw [List.head?_reverse] at hx
    exact h2 x hx)]
  exact List.reverse_reverse l

/-- `strip` is idempotent. -/
theorem trimStr_idem (l : Str) : trimStr (trimStr l) = trimStr l :=
  trimStr_eq_self_of _ (trim_head_false l) (trim_getLast_false l)

/-- `strip` and `upper` commute. -/
theorem trim_upper_comm (l : Str) : trimStr (upperStr l) = upperStr (trimStr l) := by
  have hws : (isSpace ∘ upperChar) = isSpace := funext isSpace_upperChar
  unfold trimStr upperStr
  simp only [List.dropWhile_map, hws, ← List.map_reverse]

/-- The normal form used inside `map_to_yahoo` is trimmed. -/
theorem canon_trim (s : Str) : trimStr (upperStr (trimStr s)) = upperStr (trimStr s) := by
  rw [trim_upper_comm, trimStr_idem]

/-- The normal form used inside `map_to_yahoo` is upper-case. -/
theorem canon_upper (s : Str) : upperStr (upperStr (trimStr s)) = upperStr (trimStr s) :=
  upperStr_idem _

/-- The head of the normal form is not whitespace. -/
theorem canon_head (s : Str) : ∀ x ∈ (upperStr (trimStr s)).head?, isSpace x = false := by
  rw [← trim_upper_comm]
  exact trim_head_false (upperStr s)

/-- A suffix of a string rules out incomparable suffixes. -/
theorem sfx_disjoint (o sfx bad : Str) (hs : sfx <:+ o)
    (h1 : ¬ bad <:+ sfx) (h2 : ¬ sfx <:+ bad) : ¬ bad <:+ o :=
  fun hb => (List.suffix_or_suffix_of_suffix hb hs).elim h1 h2

/-- C2: for every input whose trimmed upper-cased form ends in a recognized
exchange qualifier, `map_to_yahoo` removes the qualifier and appends the
corresponding provider suffix: ":TSXV" becomes ".V" and ":TSX" becomes ".TO". -/
theorem c2_exchange_qualifiers (s : Str) :
    (strLit ":TSXV" <:+ upperStr (trimStr s) →
      mapToYahoo s = (upperStr (trimStr s)).take ((upperStr (trimStr s)).length - 5)
        ++ strLit ".V") ∧
    (strLit ":TSX" <:+ upperStr (trimStr s) →
      mapToYahoo s = (upperStr (trimStr s)).take ((upperStr (trimStr s)).length - 4)
        ++ strLit ".TO") := by
  constructor
  · intro h
    have hne : upperStr (trimStr s) ≠ [] := by
      obtain ⟨t, ht⟩ := h
      intro h0
      rw [h0] at ht
      rcases List.append_eq_nil.mp ht with ⟨-, h2⟩
      exact absurd h2 (by decide)
    simp only [mapToYahoo]
    rw [if_neg hne, if_pos h]
  · intro h
    have hne : upperStr (trimStr s) ≠ [] := by
      obtain ⟨t, ht⟩ := h
      intro h0
      rw [h0] at ht
      rcases List.append_eq_nil.mp ht with ⟨-, h2⟩
      exact absurd h2 (by decide)
    have hnov : ¬ strLit ":TSXV" <:+ upperStr (trimStr s) :=
      sfx_disjoint _ _ _ h (by decide) (by decide)
    simp only [mapToYahoo]
    rw [if_neg hne, if_neg hnov, if_pos h]

/-- Witness for `c2_exchange_qualifiers` on " ab:tsxv " and "cd:tsx". -/
theorem c2_exchange_qualifiers_witness :
    mapToYahoo (strLit " ab:tsxv ") = (upperStr (trimStr (strLit " ab:tsxv "))).take
      ((upperStr (trimStr (strLit " ab:tsxv "))).length - 5) ++ strLit ".V" ∧
    mapToYahoo (strLit "cd:tsx") = (upperStr (trimStr (strLit "cd:tsx"))).take
      ((upperStr (trimStr (strLit "cd:tsx"))).length - 4) ++ strLit ".TO" :=
  ⟨(c2_exchange_qualifiers _).1 (by decide), (c2_exchange_qualifiers _).2 (by decide)⟩

/-- `map_to_yahoo` written out on an input that is already trimmed and
upper-case. -/
theorem mapToYahoo_eq_of_canon (o : Str) (h1 : trimStr o = o) (h2 : upperStr o = o) :
    mapToYahoo o = (if o = [] then o
      else if strLit ":TSXV" <:+ o then (o.take (o.length - 5)) ++ strLit ".V"
      else if strLit ":TSX" <:+ o then (o.take (o.length - 4)) ++ strLit ".TO"
      else if o.contains 46 then o else o ++ strLit ".TO") := by
  simp only [mapToYahoo]
  rw [h1, h2]

/-- A trimmed upper-case string without exchange qualifier that carries a
dot (or is empty) is a fixed point of `map_to_yahoo`. -/
theorem mapToYahoo_fix (o : Str) (h1 : trimStr o = o) (h2 : upperStr o = o)
    (h5 : ¬ strLit ":TSXV" <:+ o) (h4 : ¬ strLit ":TSX" <:+ o)
    (h46 : o.contains 46 = true) : mapToYahoo o = o := by
  rw [mapToYahoo_eq_of_canon o h1 h2]
  by_cases h0 : o = []
  · rw [if_pos h0]
  · rw [if_neg h0, if_neg h5, if_neg h4, if_pos h46]

/-- `getLast?` looks only at a nonempty right factor. -/
theorem getLast?_append_right (t m : Str) (h : m ≠ []) :
    (t ++ m).getLast? = m.getLast? := by
  rw [List.getLast?_append]
  cases hm : m.getLast? with
  | none =>
    rw [List.getLast?_eq_none_iff] at hm
    exact absurd hm h
  | some x => rfl

/-- Appending a clean literal to a clean stem stays trimmed and upper-case. -/
theorem append_lit_canon (t lit : Str)
    (hh : ∀ x ∈ (t ++ lit).head?, isSpace x = false)
    (hlit_ne : lit ≠ [])
    (hlit_last : ∀ x ∈ lit.getLast?, isSpace x = false)
    (ht_up : upperStr t = t) (hlit_up : upperStr lit = lit) :
    trimStr (t ++ lit) = t ++ lit ∧ upperStr (t ++ lit) = t ++ lit := by
  constructor
  · apply trimStr_eq_self_of _ hh
    intro x hx
    rw [getLast?_append_right t lit hlit_ne] at hx
    exact hlit_last x hx
  · unfold upperStr at ht_up hlit_up ⊢
    rw [List.map_append, ht_up, hlit_up]

/-- The stem of a decomposition of the normal form is upper-case. -/
theorem upper_fix_of_decomp (s t0 sfx : Str)
    (ht0 : t0 ++ sfx = upperStr (trimStr s)) : upperStr t0 = t0 := by
  have hup : upperStr (t0 ++ sfx) = t0 ++ sfx := by rw [ht0]; exact canon_upper s
  unfold upperStr at hup ⊢
  rw [List.map_append] at hup
  exact (List.append_inj hup (by rw [List.length_map])).1

/-- Replacing the qualifier suffix of the normal form by a clean literal
leaves the head free of whitespace. -/
theorem head_no_ws_of_decomp (s t0 sfx lit : Str)
    (ht0 : t0 ++ sfx = upperStr (trimStr s))
    (hlit : ∀ x ∈ lit.head?, isSpace x = false) :
    ∀ x ∈ (t0 ++ lit).head?, isSpace x = false := by
  intro x hx
  cases t0 with
  | nil =>
    simp only [List.nil_append] at hx
    exact hlit x hx
  | cons a r =>
    simp only [List.cons_append, List.head?_cons, Option.mem_def, Option.some.injEq] at hx
    apply canon_head s
    rw [← ht0]
    simp only [List.cons_append, List.head?_cons, Option.mem_def, Option.some.injEq]
    exact hx

/-- C3: `map_to_yahoo` is idempotent. -/
theorem c3_map_to_yahoo_idempotent (s : Str) :
    mapToYahoo (mapToYahoo s) = mapToYahoo s := by
  have hcu := canon_upper s
  have hct := canon_trim s
  by_cases h0 : upperStr (trimStr s) = []
  · have hout : mapToYahoo s = [] := by
      simp only [mapToYahoo]
      rw [if_pos h0, h0]
    rw [hout]
    rfl
  · by_cases h5 : strLit ":TSXV" <:+ upperStr (trimStr s)
    · obtain ⟨t0, ht0⟩ := h5
      have hout : mapToYahoo s = t0 ++ strLit ".V" := by
        simp only [mapToYahoo]
        rw [if_neg h0, if_pos ⟨t0, ht0⟩, ← ht0]
        rw [show (t0 ++ strLit ":TSXV").length - 5 = t0.length from by
          rw [List.length_append, show (strLit ":TSXV").length = 5 from rfl]; omega]
        rw [List.take_left]
      have hh := head_no_ws_of_decomp s t0 (strLit ":TSXV") (strLit ".V") ht0
        (by intro x hx; simp only [Option.mem_def] at hx;
            rw [show (strLit ".V").head? = some 46 from rfl] at hx;
            cases hx; rfl)
      have hcanon := append_lit_canon t0 (strLit ".V") hh (by decide)
        (by intro x hx; simp only [Option.mem_def] at hx;
            rw [show (strLit ".V").getLast? = some 86 from rfl] at hx;
            cases hx; rfl)
        (upper_fix_of_decomp s t0 (strLit ":TSXV") ht0) (by decide)
      have hsfxV : strLit ".V" <:+ (t0 ++ strLit ".V") := ⟨t0, rfl⟩
      have hn5 : ¬ strLit ":TSXV" <:+ (t0 ++ strLit ".V") :=
        sfx_disjoint _ _ _ hsfxV (by decide) (by decide)
      have hn4 : ¬ strLit ":TSX" <:+ (t0 ++ strLit ".V") :=
        sfx_disjoint _ _ _ hsfxV (by decide) (by decide)
      have h46 : (t0 ++ strLit ".V").contains 46 = true := by
        have hm : (46 : Nat) ∈ t0 ++ strLit ".V" := List.mem_append_right _ (by decide)
        simpa using hm
      rw [hout]
      exact mapToYahoo_fix _ hcanon.1 hcanon.2 hn5 hn4 h46
    · by_cases h4 : strLit ":TSX" <:+ upperStr (trimStr s)
      · obtain ⟨t0, ht0⟩ := h4
        have hout : mapToYahoo s = t0 ++ strLit ".TO" := by
          simp only [mapToYahoo]
          rw [if_neg h0, if_neg h5, if_pos ⟨t0, ht0⟩, ← ht0]
          rw [show (t0 ++ strLit ":TSX").length - 4 = t0.length from by
            rw [List.length_append, show (strLit ":TSX").length = 4 from rfl]; omega]
          rw [List.take_left]
        have hh := head_no_ws_of_decomp s t0 (strLit ":TSX") (strLit ".TO") ht0
          (by intro x hx; simp only [Option.mem_def] at hx;
              rw [show (strLit ".TO").head? = some 46 from rfl] at hx;
              cases hx; rfl)
        have hcanon := append_lit_canon t0 (strLit ".TO") hh (by decide)
          (by intro x hx; simp only [Option.mem_def] at hx;
              rw [show (strLit ".TO").getLast? = some 79 from rfl] at hx;
              cases hx; rfl)
          (upper_fix_of_decomp s t0 (strLit ":TSX") ht0) (by decide)
        have hsfxT : strLit ".TO" <:+ (t0 ++ strLit ".TO") := ⟨t0, rfl⟩
        have hn5 : ¬ strLit ":TSXV" <:+ (t0 ++ strLit ".TO") :=
          sfx_disjoint _ _ _ hsfxT (by decide) (by decide)
        have hn4 : ¬ strLit ":TSX" <:+ (t0 ++ strLit ".TO") :=
          sfx_disjoint _ _ _ hsfxT (by decide) (by decide)
        have h46 : (t0 ++ strLit ".TO").contains 46 = true := by
          have hm : (46 : Nat) ∈ t0 ++ strLit ".TO" := List.mem_append_right _ (by decide)
          simpa using hm
        rw [hout]
        exact mapToYahoo_fix _ hcanon.1 hcanon.2 hn5 hn4 h46
      · by_cases h46 : (upperStr (trimStr s)).contains 46 = true
        · have hout : mapToYahoo s = upperStr (trimStr s) := by
            simp only [mapToYahoo]
            rw [if_neg h0, if_neg h5, if_neg h4, if_pos h46]
          rw [hout]
          exact mapToYahoo_fix _ hct hcu h5 h4 h46
        · have hout : mapToYahoo s = upperStr (trimStr s) ++ strLit ".TO" := by
            simp only [mapToYahoo]
            rw [if_neg h0, if_neg h5, if_neg h4, if_neg h46]
          have ht0 : upperStr (trimStr s) ++ ([] : Str) = upperStr (trimStr s) :=
            List.append_nil _
          have hh := head_no_ws_of_decomp s (upperStr (trimStr s)) [] (strLit ".TO") ht0
            (by intro x hx; simp only [Option.mem_def] at hx;
                rw [show (strLit ".TO").head? = some 46 from rfl] at hx;
                cases hx; rfl)
          have hcanon := append_lit_canon (upperStr (trimStr s)) (strLit ".TO") hh (by decide)
            (by intro x hx; simp only [Option.mem_def] at hx;
                rw [show (strLit ".TO").getLast? = some 79 from rfl] at hx;
                cases hx; rfl)
            hcu (by decide)
          have hsfxT : strLit ".TO" <:+ (upperStr (trimStr s) ++ strLit ".TO") :=
            ⟨upperStr (trimStr s), rfl⟩
          have hn5 : ¬ strLit ":TSXV" <:+ (upperStr (trimStr s) ++ strLit ".TO") :=
            sfx_disjoint _ _ _ hsfxT (by decide) (by decide)
          have hn4 : ¬ strLit ":TSX" <:+ (upperStr (trimStr s) ++ strLit ".TO") :=
            sfx_disjoint _ _ _ hsfxT (by decide) (by decide)
          have h46o : (upperStr (trimStr s) ++ strLit ".TO").contains 46 = true := by
            have hm : (46 : Nat) ∈ upperStr (trimStr s) ++ strLit ".TO" :=
              List.mem_append_right _ (by decide)
            simpa using hm
          rw [hout]
          exact mapToYahoo_fix _ hcanon.1 hcanon.2 hn5 hn4 h46o

/-- C8 (counterexample): with a file that exists but cannot be read
(`pd.read_csv` raises, e.g. a permission error or malformed CSV), the
loader propagates the error instead of returning the default list: the
"unreadable" part of the claim fails on the code, which guards only
`Path(csv_path).exists()` and wraps `pd.read_csv` in no handler. -/
theorem c8_loader_counterexample :
    loadTickerList (fun _ => true) (fun _ => Except.error (strLit "PermissionError"))
      (strLit "tickers.csv") = Except.error (strLit "PermissionError") ∧
    loadTickerList (fun _ => true) (fun _ => Except.error (strLit "PermissionError"))
      (strLit "tickers.csv") ≠ Except.ok (big6, false) ∧
    loadTickerList (fun _ => true) (fun _ => Except.error (strLit "PermissionError"))
      (strLit "tickers.csv") ≠ Except.ok (big6, true) := by
  refine ⟨rfl, ?_, ?_⟩ <;>
    · intro h
      rw [show loadTickerList (fun _ => true)
        (fun _ => Except.error (strLit "PermissionError")) (strLit "tickers.csv")
          = Except.error (strLit "PermissionError") from rfl] at h
      exact Except.noConfusion h

/-- C8 (amended): if the path is empty or `Path.exists()` is false, the
loader returns the fixed default six-bank list without a warning; if the
file exists and parses but has no column named "Ticker" or "Symbol"
(case-insensitive), it returns the default list and emits the warning.
(A file that exists but fails to read propagates the exception, see the
counterexample.) -/
theorem c8_loader_fallback (pexists : Str → Bool) (pread : Str → Except Str Csv) (p : Str) :
    ((p = [] ∨ pexists p = false) → loadTickerList pexists pread p = Except.ok (big6, false)) ∧
    (∀ csv, p ≠ [] → pexists p = true → pread p = Except.ok csv → findSymCol csv.cols = none →
      loadTickerList pexists pread p = Except.ok (big6, true)) := by
  constructor
  · intro hor
    have hcond : ¬ (p ≠ [] ∧ pexists p = true) := by
      rcases hor with h | h
      · intro hc; exact hc.1 h
      · intro hc; rw [h] at hc; exact Bool.noConfusion hc.2
    unfold loadTickerList
    rw [if_neg hcond]
  · intro csv hp hex hr hcol
    unfold loadTickerList
    rw [if_pos ⟨hp, hex⟩, hr]
    dsimp only
    rw [hcol]

/-- Witness for `c8_loader_fallback`: an absent file falls back silently;
a readable CSV without a symbol column falls back with the warning. -/
theorem c8_loader_fallback_witness :
    loadTickerList (fun _ => false) (fun _ => Except.error (strLit "e")) (strLit "a.csv")
      = Except.ok (big6, false) ∧
    loadTickerList (fun _ => true) (fun _ => Except.ok (Csv.mk [(strLit "Name", [strLit "x"])]))
      (strLit "a.csv") = Except.ok (big6, true) :=
  ⟨(c8_loader_fallback _ _ _).1 (Or.inr rfl),
   (c8_loader_fallback _ _ _).2 (Csv.mk [(strLit "Name", [strLit "x"])])
     (by decide) rfl rfl (by decide)⟩

end StockApp
